import Mathlib

/-!
Verification of the brewblox-devcon-spark device command protocol layer.

The development shallowly embeds:
* `brewblox_codec_spark/codec.py` — the varint-framed payload codec
  (`encode`, `decode`, `_transcoder`, `_TYPE_MAPPING`,
  `ProtobufTranscoder.encode` / `ProtobufTranscoder.decode`), together with
  the protobuf helper routines it calls
  (`google.protobuf.internal.encoder._VarintBytes` and
  `google.protobuf.internal.decoder._DecodeVarint`), translated from their
  standard library sources;
* the command layer (`brewblox_devcon_spark/commands.py`), whose source is
  not in the repository snapshot (only its tests are), modelled from the
  specification;
* `brewblox_devcon_spark/datastore.py` — the `insert_unique` operation of
  `DataStore`.

Machine bytes are `Nat` below 256; byte strings are `List Nat`; fallible
code returns `Except`.
-/

/-! ## Payload codec: `brewblox_codec_spark/codec.py` -/

/-- Error values raised by the codec paths: Python `KeyError` (unknown type
tag), `IndexError` (buffer overrun inside `_DecodeVarint`), protobuf
`DecodeError`-style failures, `json_format.ParseError` (unknown field in
`ParseDict`), and `ValueError` (non-byte integer handed to `bytes(...)`). -/
inductive CodecError where
  | keyError (msg : String)
  | indexError (msg : String)
  | truncated (msg : String)
  | parseError (msg : String)
  | valueError (msg : String)
deriving DecidableEq

/-- Fueled worker for `varintBytes`. The fuel only serves structural
termination; `varintBytes` always supplies enough (see `varintBytesAux_congr`). -/
def varintBytesAux : Nat → Nat → List Nat
  | 0, n => [n % 128]
  | fuel + 1, n =>
    if n < 128 then [n]
    else (n % 128 + 128) :: varintBytesAux fuel (n / 128)

/-- `google.protobuf.internal.encoder._VarintBytes`: minimal base-128
encoding of an unsigned integer, least-significant group first, high bit of
each byte a continuation flag. -/
def varintBytes (n : Nat) : List Nat :=
  varintBytesAux n n

/-- Fueled worker for `_DecodeVarint`. The Python loop raises after the shift
reaches 64, so at most ten iterations happen; fuel 10 makes that bound
structural, and the fuel-exhausted branch returns the same error the
shift guard would. -/
def decodeVarintLoop (buffer : List Nat) : Nat → Nat → Nat → Nat → Except CodecError (Nat × Nat)
  | 0, _, _, _ => .error (.truncated "Too many bytes when decoding varint.")
  | fuel + 1, pos, shift, result =>
    match buffer[pos]? with
    | none => .error (.indexError "index out of range")
    | some b =>
      let r := result ||| ((b &&& 127) <<< shift)
      if b &&& 128 == 0 then .ok (r % 2 ^ 64, pos + 1)
      else if 64 ≤ shift + 7 then .error (.truncated "Too many bytes when decoding varint.")
      else decodeVarintLoop buffer fuel (pos + 1) (shift + 7) r

/-- `google.protobuf.internal.decoder._DecodeVarint buffer pos`: returns the
decoded value (masked to 64 bits) and the position one past the varint. -/
def decodeVarint (buffer : List Nat) (pos : Nat) : Except CodecError (Nat × Nat) :=
  decodeVarintLoop buffer 10 pos 0 0

/-- Value denoted by a list of base-128 groups, least-significant first
(specification-side reading of the varint wire format). -/
def varintValue : List Nat → Nat
  | [] => 0
  | b :: rest => b % 128 + 128 * varintValue rest

/-- Specification-side well-formedness of a varint byte string: nonempty,
every byte but the last carries the continuation bit, the last does not. -/
def validVarint : List Nat → Bool
  | [] => false
  | [b] => b < 128
  | b :: rest => 128 ≤ b && b < 256 && validVarint rest

/-- A protobuf message descriptor for the minimal schemas used here: an
ordered association of field names to field numbers, every field a varint
scalar.

Modelled from the spec: the generated protobuf modules
`brewblox_codec_spark.proto.OneWireBus_pb2` and
`brewblox_codec_spark.proto.OneWireTempSensor_pb2` are not in the
repository snapshot; per the spec a payload schema is a static descriptor
of field names and kinds, serialized in canonical protobuf form. -/
structure MessageType where
  schema : List (String × Nat)
deriving DecidableEq

/-- Structured payload values: field name to unsigned scalar. -/
abbrev PbValues := List (String × Nat)

/-- Internal message state after `json_format.ParseDict`: set fields as
(field number, value) pairs in schema order. -/
abbrev PbMsg := List (Nat × Nat)

/-- `json_format.ParseDict values message`: rejects keys that are not fields
of the schema, otherwise records the given fields. -/
def parseDict (m : MessageType) (values : PbValues) : Except CodecError PbMsg :=
  if values.all (fun kv => (m.schema.lookup kv.1).isSome) then
    .ok (m.schema.filterMap (fun nf => (values.lookup nf.1).map (fun v => (nf.2, v))))
  else
    .error (.parseError "Message type has no field with the given name")

/-- `message.SerializeToString()`: canonical protobuf body — for every set
field with a non-default (nonzero) value, a varint tag (field number
shifted left three, wire type 0) followed by the varint value. -/
def serializeMsg (msg : PbMsg) : List Nat :=
  (msg.filter (fun fv => fv.2 != 0)).flatMap
    (fun fv => varintBytes (fv.1 <<< 3) ++ varintBytes fv.2)

/-- Fueled worker for `parseFromString`: repeatedly reads a varint tag and a
varint value; wire types other than varint are not used by these schemas. -/
def parseBodyLoop (fuel : Nat) (data : List Nat) (acc : PbMsg) : Except CodecError PbMsg :=
  match fuel with
  | 0 => .error (.parseError "internal fuel exhausted")
  | fuel + 1 =>
    match data with
    | [] => .ok acc
    | _ :: _ => do
      let (tag, p1) ← decodeVarint data 0
      if tag &&& 7 == 0 then do
        let (v, p2) ← decodeVarint data p1
        parseBodyLoop fuel (data.drop p2) (acc ++ [(tag >>> 3, v)])
      else
        .error (.truncated "unexpected wire type")

/-- `message.ParseFromString(data)` followed by field extraction: parses the
whole body as varint-tagged scalar fields. -/
def parseFromString (data : List Nat) : Except CodecError PbMsg :=
  parseBodyLoop (data.length + 1) data []

/-- `json_format.MessageToDict(message)`: maps set fields back to schema
names, omitting fields holding the default (zero) value. -/
def messageToDict (m : MessageType) (msg : PbMsg) : PbValues :=
  msg.filterMap (fun fv =>
    if fv.2 = 0 then none
    else (m.schema.find? (fun nf => nf.2 == fv.1)).map (fun nf => (nf.1, fv.2)))

/-- The `Union[bytes, list]` argument of `decode`: either a byte buffer or a
plain list of integers. -/
inductive Encoded where
  | bytes (data : List Nat)
  | list (data : List Nat)
deriving DecidableEq

/-- The `isinstance(encoded, list)` branch of `ProtobufTranscoder.decode`:
a list is converted with `bytes(...)`, which requires every element to be a
byte. -/
def toByteBuffer : Encoded → Except CodecError (List Nat)
  | .bytes data => .ok data
  | .list data =>
    if data.all (fun b => decide (b < 256)) then .ok data
    else .error (.valueError "bytes must be in range(0, 256)")

/-- `ProtobufTranscoder.encode` of `codec.py` lines 50-56: `ParseDict`, then
`SerializeToString`, then prepend `_VarintBytes` of the body length. -/
def ProtobufTranscoder.encode (m : MessageType) (values : PbValues) : Except CodecError (List Nat) := do
  let obj ← parseDict m values
  let data := serializeMsg obj
  let delimiter := varintBytes data.length
  return delimiter ++ data

/-- `ProtobufTranscoder.decode` of `codec.py` lines 58-66: convert a list to
bytes, read the varint size prefix at position 0, slice
`encoded[position:position+size]` (Python slicing truncates silently),
parse the slice, convert to a dict. -/
def ProtobufTranscoder.decode (m : MessageType) (encoded : Encoded) : Except CodecError PbValues := do
  let buf ← toByteBuffer encoded
  let (size, position) ← decodeVarint buf 0
  let obj ← parseFromString ((buf.drop position).take size)
  return messageToDict m obj

/-- Modelled from the spec: schema of `OneWireBus_pb2.OneWireBus`, whose
generated module is not in the snapshot — flat varint fields. -/
def OneWireBusMsg : MessageType :=
  ⟨[("command", 1), ("address", 2)]⟩

/-- Modelled from the spec: schema of
`OneWireTempSensor_pb2.OneWireTempSensor`, whose generated module is not in
the snapshot — flat varint fields. -/
def OneWireTempSensorMsg : MessageType :=
  ⟨[("address", 1), ("offset", 2)]⟩

/-- `_TYPE_MAPPING` of `codec.py`: object type tag to transcoder. -/
def _TYPE_MAPPING : List (Nat × MessageType) :=
  [(10, OneWireBusMsg), (6, OneWireTempSensorMsg)]

/-- `_transcoder` of `codec.py` lines 26-30: dictionary lookup, `KeyError`
rethrown with a message naming the missing codec. -/
def _transcoder (obj_type : Nat) : Except CodecError MessageType :=
  match _TYPE_MAPPING.lookup obj_type with
  | some m => .ok m
  | none => .error (.keyError ("No codec found for object type [" ++ toString obj_type ++ "]"))

/-- Module-level `encode` of `codec.py`. -/
def encode (obj_type : Nat) (values : PbValues) : Except CodecError (List Nat) := do
  let m ← _transcoder obj_type
  ProtobufTranscoder.encode m values

/-- Module-level `decode` of `codec.py`. -/
def decode (obj_type : Nat) (encoded : Encoded) : Except CodecError PbValues := do
  let m ← _transcoder obj_type
  ProtobufTranscoder.decode m encoded

/-! ## Command layer: `brewblox_devcon_spark/commands.py`

The module's source is not in the repository snapshot (only its tests);
every definition in this section is modelled from the specification
(sections 3, 4.1, 4.3, 4.4, 4.5 of the spec). For the variable-length
object-id encoding the spec leaves the exact scheme open and asks for a
self-consistent scheme satisfying the round-trip property and the concrete
byte sequence of its section 8; the scheme below sets the high bit of
every segment byte except the last, so `[127, 7]` encodes as
`[0xFF, 0x07]`. -/

/-- Errors raised by the command layer: `KeyError` from the index, and
build/parse failures of a schema. -/
inductive CmdError where
  | keyError (msg : String)
  | constMismatch (expected actual : Nat)
  | fieldError (nm : String)
  | truncatedError (nm : String)
deriving DecidableEq

/-- A decoded field value: a scalar, an object-id path, or raw bytes. -/
inductive FieldVal where
  | num (n : Nat)
  | nums (l : List Nat)
  | raw (b : List Nat)
deriving DecidableEq

/-- A decoded request/response mapping, represented canonically in schema
field order (Python dict equality is order-insensitive, so each abstract
mapping is embedded by its schema-ordered representative). -/
abbrev CmdValues := List (String × FieldVal)

/-- Modelled from the spec: one field of a command schema — the constant
opcode byte that starts every frame, a variable-length object id, a
one-byte scalar, or the opaque byte blob filling the rest of the frame. -/
inductive SchemaField where
  | constOpcode (opcode : Nat)
  | objectId (nm : String)
  | uint8 (nm : String)
  | greedyBytes (nm : String)
deriving DecidableEq

/-- The field kinds that consume the rest of the buffer. -/
def isGreedy : SchemaField → Bool
  | .greedyBytes _ => true
  | _ => false

/-- A schema is parse-unambiguous when only its final field may be greedy. -/
def greedyOnlyLast : List SchemaField → Bool
  | [] => true
  | [_] => true
  | f :: fs => !(isGreedy f) && greedyOnlyLast fs

/-- Canonical name of a field. -/
def fieldName : SchemaField → String
  | .constOpcode _ => "opcode"
  | .objectId nm => nm
  | .uint8 nm => nm
  | .greedyBytes nm => nm

/-- A mapping entry satisfies a schema field: right name, right kind, value
in range (segments of an object id fit seven bits, scalars fit a byte, the
const field carries exactly the opcode). -/
def validField : SchemaField → String × FieldVal → Bool
  | .constOpcode n, (k, v) => k == "opcode" && v == .num n && decide (n < 256)
  | .objectId nm, (k, .nums p) =>
      k == nm && !p.isEmpty && p.all (fun b => decide (b < 128))
  | .objectId _, _ => false
  | .uint8 nm, (k, .num v) => k == nm && decide (v < 256)
  | .uint8 _, _ => false
  | .greedyBytes nm, (k, .raw d) => k == nm && d.all (fun b => decide (b < 256))
  | .greedyBytes _, _ => false

/-- A mapping satisfies a schema: one entry per field, in schema order. -/
def validFor : List SchemaField → CmdValues → Bool
  | [], [] => true
  | f :: fs, kv :: vs => validField f kv && validFor fs vs
  | _, _ => false

/-- Modelled from the spec: variable-length object-id encoding — the high
bit of every byte except the last marks that more segments follow. -/
def encodeId : List Nat → List Nat
  | [] => []
  | [b] => [b]
  | b :: rest => (b ||| 128) :: encodeId rest

/-- Reads the byte group of a variable-length object id: bytes while the
high bit is set, then the terminating byte; running out is a framing
error. -/
def readIdBytes : List Nat → Except CmdError (List Nat × List Nat)
  | [] => .error (.truncatedError "object id")
  | b :: rest =>
    if b &&& 128 == 0 then .ok ([b], rest)
    else
      match readIdBytes rest with
      | .ok (more, r) => .ok (b :: more, r)
      | .error e => .error e

/-- Modelled from the spec: `build` serializes a mapping in fixed field
order. The constant opcode field may be omitted from the input (it is
emitted regardless and checked when supplied); every other field must be
present with a value of the right kind and range. -/
def buildFields : List SchemaField → CmdValues → Except CmdError (List Nat)
  | [], _ => .ok []
  | .constOpcode n :: fs, ("opcode", .num m) :: vs =>
    if m == n then (buildFields fs vs).map (fun r => n :: r)
    else .error (.constMismatch n m)
  | .constOpcode n :: fs, vs => (buildFields fs vs).map (fun r => n :: r)
  | .objectId nm :: fs, (k, .nums p) :: vs =>
    if k == nm && !p.isEmpty && p.all (fun b => decide (b < 256)) then
      (buildFields fs vs).map (fun r => encodeId p ++ r)
    else .error (.fieldError nm)
  | .objectId nm :: _, _ => .error (.fieldError nm)
  | .uint8 nm :: fs, (k, .num v) :: vs =>
    if k == nm && decide (v < 256) then (buildFields fs vs).map (fun r => v :: r)
    else .error (.fieldError nm)
  | .uint8 nm :: _, _ => .error (.fieldError nm)
  | .greedyBytes nm :: fs, (k, .raw d) :: vs =>
    if k == nm && d.all (fun b => decide (b < 256)) then
      (buildFields fs vs).map (fun r => d ++ r)
    else .error (.fieldError nm)
  | .greedyBytes nm :: _, _ => .error (.fieldError nm)

/-- Modelled from the spec: `parse` reads the fields back in schema order,
returning the mapping and the unconsumed bytes; the constant opcode is
checked and reported in the mapping, an object id is the marker-decoded
segment list, a greedy field takes the whole remaining buffer. -/
def parseFields : List SchemaField → List Nat → Except CmdError (CmdValues × List Nat)
  | [], bs => .ok ([], bs)
  | .constOpcode n :: fs, b :: bs =>
    if b == n then
      match parseFields fs bs with
      | .ok (vs, r) => .ok (("opcode", .num n) :: vs, r)
      | .error e => .error e
    else .error (.constMismatch n b)
  | .constOpcode _ :: _, [] => .error (.truncatedError "opcode")
  | .objectId nm :: fs, bs =>
    match readIdBytes bs with
    | .ok (idb, rest) =>
      match parseFields fs rest with
      | .ok (vs, r) => .ok ((nm, .nums (idb.map (fun b => b &&& 127))) :: vs, r)
      | .error e => .error e
    | .error e => .error e
  | .uint8 nm :: fs, b :: bs =>
    match parseFields fs bs with
    | .ok (vs, r) => .ok ((nm, .num b) :: vs, r)
    | .error e => .error e
  | .uint8 nm :: _, [] => .error (.truncatedError nm)
  | .greedyBytes nm :: fs, bs =>
    match parseFields fs [] with
    | .ok (vs, r) => .ok ((nm, .raw bs) :: vs, r)
    | .error e => .error e

/-- `parse` of a schema: the decoded mapping (a frame may carry trailing
bytes after a non-greedy schema, as in the source parser). -/
def parseSchema (fields : List SchemaField) (bs : List Nat) : Except CmdError CmdValues :=
  match parseFields fields bs with
  | .ok (vs, _) => .ok vs
  | .error e => .error e

/-- The device error code enumeration's success sentinel. -/
def ErrorcodeEnum.OK : Nat := 0

/-- Modelled from the spec: one entry of the command table — symbolic name,
nonzero opcode, request and response schemas. -/
structure CommandSpec where
  name : String
  opcode : Nat
  request : List SchemaField
  response : List SchemaField
deriving DecidableEq

/-- READ_VALUE command. -/
def readValueCommand : CommandSpec :=
  { name := "READ_VALUE", opcode := 1,
    request := [.constOpcode 1, .objectId "object_id", .uint8 "type", .uint8 "size"],
    response := [.uint8 "errcode", .uint8 "type", .uint8 "size", .greedyBytes "data"] }

/-- WRITE_VALUE command (opcode 2, fixed by the spec's concrete scenario). -/
def writeValueCommand : CommandSpec :=
  { name := "WRITE_VALUE", opcode := 2,
    request := [.constOpcode 2, .objectId "object_id", .uint8 "type", .uint8 "size",
      .greedyBytes "data"],
    response := [.uint8 "errcode", .uint8 "type", .uint8 "size", .greedyBytes "data"] }

/-- CREATE_OBJECT command. -/
def createObjectCommand : CommandSpec :=
  { name := "CREATE_OBJECT", opcode := 3,
    request := [.constOpcode 3, .objectId "object_id", .uint8 "type", .uint8 "size",
      .greedyBytes "data"],
    response := [.uint8 "errcode"] }

/-- DELETE_OBJECT command. -/
def deleteObjectCommand : CommandSpec :=
  { name := "DELETE_OBJECT", opcode := 4,
    request := [.constOpcode 4, .objectId "object_id"],
    response := [.uint8 "errcode"] }

/-- LIST_OBJECTS command. -/
def listObjectsCommand : CommandSpec :=
  { name := "LIST_OBJECTS", opcode := 5,
    request := [.constOpcode 5, .uint8 "profile_id"],
    response := [.uint8 "errcode", .greedyBytes "data"] }

/-- FREE_SLOT command. -/
def freeSlotCommand : CommandSpec :=
  { name := "FREE_SLOT", opcode := 6,
    request := [.constOpcode 6, .objectId "object_id"],
    response := [.uint8 "errcode"] }

/-- CREATE_PROFILE command. -/
def createProfileCommand : CommandSpec :=
  { name := "CREATE_PROFILE", opcode := 7,
    request := [.constOpcode 7],
    response := [.uint8 "errcode", .uint8 "profile_id"] }

/-- DELETE_PROFILE command. -/
def deleteProfileCommand : CommandSpec :=
  { name := "DELETE_PROFILE", opcode := 8,
    request := [.constOpcode 8, .uint8 "profile_id"],
    response := [.uint8 "errcode"] }

/-- ACTIVATE_PROFILE command. -/
def activateProfileCommand : CommandSpec :=
  { name := "ACTIVATE_PROFILE", opcode := 9,
    request := [.constOpcode 9, .uint8 "profile_id"],
    response := [.uint8 "errcode"] }

/-- LOG_VALUES command. -/
def logValuesCommand : CommandSpec :=
  { name := "LOG_VALUES", opcode := 10,
    request := [.constOpcode 10, .uint8 "flags"],
    response := [.uint8 "errcode", .greedyBytes "data"] }

/-- RESET command. -/
def resetCommand : CommandSpec :=
  { name := "RESET", opcode := 11,
    request := [.constOpcode 11, .uint8 "flags"],
    response := [.uint8 "errcode"] }

/-- FREE_SLOT_ROOT command. -/
def freeSlotRootCommand : CommandSpec :=
  { name := "FREE_SLOT_ROOT", opcode := 12,
    request := [.constOpcode 12, .uint8 "slot_id"],
    response := [.uint8 "errcode"] }

/-- LIST_PROFILES command. -/
def listProfilesCommand : CommandSpec :=
  { name := "LIST_PROFILES", opcode := 14,
    request := [.constOpcode 14],
    response := [.uint8 "errcode", .greedyBytes "data"] }

/-- READ_SYSTEM_VALUE command. -/
def readSystemValueCommand : CommandSpec :=
  { name := "READ_SYSTEM_VALUE", opcode := 15,
    request := [.constOpcode 15, .objectId "object_id", .uint8 "type", .uint8 "size"],
    response := [.uint8 "errcode", .uint8 "type", .uint8 "size", .greedyBytes "data"] }

/-- WRITE_SYSTEM_VALUE command. -/
def writeSystemValueCommand : CommandSpec :=
  { name := "WRITE_SYSTEM_VALUE", opcode := 16,
    request := [.constOpcode 16, .objectId "object_id", .uint8 "type", .uint8 "size",
      .greedyBytes "data"],
    response := [.uint8 "errcode", .uint8 "type", .uint8 "size", .greedyBytes "data"] }

/-- Modelled from the spec: the closed command table, populated once. -/
def _COMMANDS : List CommandSpec :=
  [readValueCommand, writeValueCommand, createObjectCommand, deleteObjectCommand,
    listObjectsCommand, freeSlotCommand, createProfileCommand, deleteProfileCommand,
    activateProfileCommand, logValuesCommand, resetCommand, freeSlotRootCommand,
    listProfilesCommand, readSystemValueCommand, writeSystemValueCommand]

/-- The fifteen registered command names. -/
def commandNames : List String :=
  ["READ_VALUE", "WRITE_VALUE", "CREATE_OBJECT", "DELETE_OBJECT", "LIST_OBJECTS",
    "FREE_SLOT", "CREATE_PROFILE", "DELETE_PROFILE", "ACTIVATE_PROFILE", "LOG_VALUES",
    "RESET", "FREE_SLOT_ROOT", "LIST_PROFILES", "READ_SYSTEM_VALUE", "WRITE_SYSTEM_VALUE"]

/-- Modelled from the spec: `CommandIndex.identify` — lookup by symbolic
name in the closed table, `KeyError` when the name is not registered. -/
def CommandIndex.identify (nm : String) : Except CmdError CommandSpec :=
  match _COMMANDS.find? (fun s => s.name == nm) with
  | some s => .ok s
  | none => .error (.keyError nm)

/-- Modelled from the spec: a `Command` holds up to four representations of
one exchange — encoded/decoded request/response, each possibly absent. -/
structure Command where
  spec : CommandSpec
  encReq : Option (List Nat)
  decReq : Option CmdValues
  encResp : Option (List Nat)
  decResp : Option CmdValues

/-- Modelled from the spec: `from_args` validates and encodes the request
fields immediately and stores the same fields as the decoded request. -/
def Command.from_args (spec : CommandSpec) (fields : CmdValues) : Except CmdError Command :=
  (buildFields spec.request fields).map
    (fun enc => ⟨spec, some enc, some fields, none, none⟩)

/-- Modelled from the spec: `from_decoded` stores the given mappings; the
encoded forms stay absent until accessed. -/
def Command.from_decoded (spec : CommandSpec) (request response : Option CmdValues) : Command :=
  ⟨spec, none, request, none, response⟩

/-- Modelled from the spec: `from_encoded` stores the given byte buffers;
the decoded forms stay absent until accessed. -/
def Command.from_encoded (spec : CommandSpec) (request response : Option (List Nat)) : Command :=
  ⟨spec, request, none, response, none⟩

/-- Modelled from the spec: the `encoded_request` accessor — the stored
bytes, or bytes derived from a stored decoded request, or absent. -/
def Command.encoded_request (c : Command) : Except CmdError (Option (List Nat)) :=
  match c.encReq with
  | some e => .ok (some e)
  | none =>
    match c.decReq with
    | some v => (buildFields c.spec.request v).map some
    | none => .ok none

/-- Modelled from the spec: the `decoded_request` accessor. -/
def Command.decoded_request (c : Command) : Except CmdError (Option CmdValues) :=
  match c.decReq with
  | some v => .ok (some v)
  | none =>
    match c.encReq with
    | some e => (parseSchema c.spec.request e).map some
    | none => .ok none

/-- Modelled from the spec: the `encoded_response` accessor. -/
def Command.encoded_response (c : Command) : Except CmdError (Option (List Nat)) :=
  match c.encResp with
  | some e => .ok (some e)
  | none =>
    match c.decResp with
    | some v => (buildFields c.spec.response v).map some
    | none => .ok none

/-- Modelled from the spec: the `decoded_response` accessor. -/
def Command.decoded_response (c : Command) : Except CmdError (Option CmdValues) :=
  match c.decResp with
  | some v => .ok (some v)
  | none =>
    match c.encResp with
    | some e => (parseSchema c.spec.response e).map some
    | none => .ok none

/-- The lowercase hex digit of a value below sixteen (digits, then the
letters starting at `a`). -/
def hexChar (n : Nat) : Char :=
  if n < 10 then Char.ofNat (48 + n) else Char.ofNat (87 + n)

/-- The sixteen lowercase hexadecimal digits. -/
def HEXDIGITS : List Char :=
  (List.range 16).map hexChar

/-- Two lowercase hex digits of one byte, as written by `binascii.hexlify`. -/
def byteHex (b : Nat) : List Char :=
  [HEXDIGITS.getD (b % 256 / 16) '0', HEXDIGITS.getD (b % 16) '0']

/-- Modelled from the spec: `Command._pretty_raw` — hex-render a raw byte
field for logs, passing an absent value through unchanged. -/
def _pretty_raw (raw : Option (List Nat)) : Option String :=
  raw.map (fun bs => String.mk ((bs.map byteHex).flatten))

/-- The `write_value_args` fixture of the tests: the request fields without
the opcode. -/
def writeValueArgs : CmdValues :=
  [("object_id", .nums [127, 7]), ("type", .num 6), ("size", .num 10),
    ("data", .raw (List.replicate 10 15))]

/-- The same request mapping completed with its opcode, in schema order. -/
def writeValueReq : CmdValues :=
  [("opcode", .num 2), ("object_id", .nums [127, 7]), ("type", .num 6), ("size", .num 10),
    ("data", .raw (List.replicate 10 15))]

/-- The `write_value_resp` fixture: a response mapping with `errcode = OK`. -/
def writeValueResp : CmdValues :=
  [("errcode", .num ErrorcodeEnum.OK), ("type", .num 6), ("size", .num 10),
    ("data", .raw (List.replicate 10 15))]

/-! ## Datastore: `brewblox_devcon_spark/datastore.py` -/

/-- A stored document value (enough structure for key equality). -/
inductive DVal where
  | str (s : String)
  | num (n : Nat)
deriving DecidableEq

/-- A document: field name to value. -/
abbrev Doc := List (String × DVal)

/-- Errors raised by `insert_unique`: Python `KeyError` when the document
lacks the id key, `AssertionError` when the key value already exists. -/
inductive DbError where
  | keyError (k : String)
  | assertionError (v : DVal)
deriving DecidableEq

/-- `DataStore.insert_unique` of `datastore.py` lines 90-100, with the
TinyDB table as a list of documents: `obj[id_key]` raises `KeyError` when
absent; the assertion fails when any stored document has the same value for
`id_key`; only then is the document inserted (appended). An error result
leaves the store untouched — both exceptions fire before `db.insert`. -/
def insert_unique (store : List Doc) (id_key : String) (obj : Doc) : Except DbError (List Doc) :=
  match obj.lookup id_key with
  | none => .error (.keyError id_key)
  | some idval =>
    if store.any (fun d => d.lookup id_key == some idval) then
      .error (.assertionError idval)
    else
      .ok (store ++ [obj])

/-! ## Varint lemmas -/

/-- Monadic bind on `Except` applied to a success. -/
theorem except_bind_ok {E : Type u} {A B : Type v} (x : A) (g : A → Except E B) :
    ((Except.ok x : Except E A) >>= g) = g x := rfl

/-- Monadic bind on `Except` applied to a failure. -/
theorem except_bind_error {E : Type u} {A B : Type v} (err : E) (g : A → Except E B) :
    ((Except.error err : Except E A) >>= g) = .error err := rfl

/-- Facts about single bytes below the continuation boundary, checked by
enumeration. -/
theorem byte_facts : ∀ b, b < 128 →
    b &&& 127 = b ∧ b &&& 128 = 0 ∧ b ||| 128 = b + 128 ∧
    (b + 128) &&& 127 = b ∧ (b + 128) &&& 128 = 128 := by
  decide

/-- The fuel of `varintBytesAux` does not matter once it covers the input. -/
theorem varintBytesAux_congr : ∀ f₁ f₂ n, n ≤ f₁ → n ≤ f₂ →
    varintBytesAux f₁ n = varintBytesAux f₂ n := by
  intro f₁
  induction f₁ with
  | zero =>
    intro f₂ n h₁ _
    interval_cases n
    cases f₂ <;> simp [varintBytesAux]
  | succ f ih =>
    intro f₂ n h₁ h₂
    match f₂, n with
    | 0, n =>
      interval_cases n
      simp [varintBytesAux]
    | g + 1, n =>
      simp only [varintBytesAux]
      by_cases hn : n < 128
      · simp [hn]
      · have hrec : n / 128 ≤ f ∧ n / 128 ≤ g := by
          have := Nat.div_le_self n 128
          have : n / 128 < n := Nat.div_lt_self (by omega) (by omega)
          omega
        simp only [hn, if_false]
        rw [ih _ _ hrec.1 hrec.2]

/-- Unfolding equation for `varintBytes`. -/
theorem varintBytes_eq (n : Nat) :
    varintBytes n = if n < 128 then [n] else (n % 128 + 128) :: varintBytes (n / 128) := by
  by_cases hn : n < 128
  · cases n <;> simp [varintBytes, varintBytesAux, hn]
  · have h0 : n ≠ 0 := by omega
    obtain ⟨m, rfl⟩ : ∃ m, n = m + 1 := ⟨n - 1, by omega⟩
    simp only [varintBytes, varintBytesAux, hn, if_false]
    have hle : (m + 1) / 128 ≤ m := by
      have : (m + 1) / 128 < m + 1 := Nat.div_lt_self (by omega) (by omega)
      omega
    rw [varintBytesAux_congr m ((m + 1) / 128) ((m + 1) / 128) hle (Nat.le_refl _)]

/-- `varintBytes` is never empty. -/
theorem varintBytes_ne_nil (n : Nat) : varintBytes n ≠ [] := by
  rw [varintBytes_eq]
  by_cases hn : n < 128 <;> simp [hn]

/-- Reading the groups of `varintBytes n` back gives `n`: the encoding is
base-128, least-significant group first. -/
theorem varintValue_varintBytes (n : Nat) : varintValue (varintBytes n) = n := by
  induction n using Nat.strong_induction_on with
  | _ n ih =>
    rw [varintBytes_eq]
    by_cases hn : n < 128
    · simp [hn, varintValue, Nat.mod_eq_of_lt hn]
    · have hlt : n / 128 < n := Nat.div_lt_self (by omega) (by omega)
      simp only [hn, if_false, varintValue, ih _ hlt]
      omega

/-- `varintBytes n` is a well-formed varint: continuation bit on every byte
but the last, clear on the last. -/
theorem validVarint_varintBytes (n : Nat) : validVarint (varintBytes n) = true := by
  induction n using Nat.strong_induction_on with
  | _ n ih =>
    rw [varintBytes_eq]
    by_cases hn : n < 128
    · simp [validVarint, hn]
    · have hlt : n / 128 < n := Nat.div_lt_self (by omega) (by omega)
      have htail := ih _ hlt
      have hne := varintBytes_ne_nil (n / 128)
      simp only [hn, if_false]
      obtain ⟨b, rest, heq⟩ : ∃ b rest, varintBytes (n / 128) = b :: rest := by
        cases h : varintBytes (n / 128) with
        | nil => exact absurd h hne
        | cons b rest => exact ⟨b, rest, rfl⟩
      rw [heq]
      rw [heq] at htail
      have hmod : n % 128 < 128 := Nat.mod_lt _ (by omega)
      simp only [validVarint]
      simp only [Bool.and_eq_true, decide_eq_true_eq]
      exact ⟨⟨by omega, by omega⟩, htail⟩

/-- Any byte list denotes a value below `128 ^ length`. -/
theorem varintValue_lt (l : List Nat) : varintValue l < 128 ^ l.length := by
  induction l with
  | nil => simp [varintValue]
  | cons b rest ih =>
    simp only [varintValue, List.length_cons, Nat.pow_succ]
    have : b % 128 < 128 := Nat.mod_lt _ (by omega)
    calc b % 128 + 128 * varintValue rest
        < 128 + 128 * varintValue rest := by omega
      _ ≤ 128 * (varintValue rest + 1) := by ring_nf; omega
      _ ≤ 128 * 128 ^ rest.length := by
          have : varintValue rest + 1 ≤ 128 ^ rest.length := ih
          exact Nat.mul_le_mul_left _ this
      _ = 128 ^ rest.length * 128 := by ring

/-- Digit-count upper bound: `n < 128 ^ k` needs at most `k` groups. -/
theorem varintBytes_length_le (n k : Nat) (hk : 1 ≤ k) (h : n < 128 ^ k) :
    (varintBytes n).length ≤ k := by
  induction n using Nat.strong_induction_on generalizing k with
  | _ n ih =>
    rw [varintBytes_eq]
    by_cases hn : n < 128
    · simp [hn]; omega
    · have hlt : n / 128 < n := Nat.div_lt_self (by omega) (by omega)
      have hk2 : 2 ≤ k := by
        by_contra hc
        have : k = 1 := by omega
        subst this
        simp at h
        omega
      have hdiv : n / 128 < 128 ^ (k - 1) := by
        have : n < 128 * 128 ^ (k - 1) := by
          have : 128 * 128 ^ (k - 1) = 128 ^ k := by
            have : k - 1 + 1 = k := by omega
            calc 128 * 128 ^ (k - 1) = 128 ^ (k - 1) * 128 := by ring
              _ = 128 ^ (k - 1 + 1) := by rw [Nat.pow_succ]
              _ = 128 ^ k := by rw [this]
          omega
        omega
      have := ih _ hlt (k - 1) (by omega) hdiv
      simp only [hn, if_false, List.length_cons]
      omega

/-- Digit-count lower bound: a multi-group encoding means `n` is at least
`128 ^ (length - 1)`. -/
theorem varintBytes_lower (n : Nat) (h : 2 ≤ (varintBytes n).length) :
    128 ^ ((varintBytes n).length - 1) ≤ n := by
  induction n using Nat.strong_induction_on with
  | _ n ih =>
    rw [varintBytes_eq] at h ⊢
    by_cases hn : n < 128
    · simp [hn] at h
    · have hlt : n / 128 < n := Nat.div_lt_self (by omega) (by omega)
      simp only [hn, if_false, List.length_cons] at h ⊢
      by_cases h2 : 2 ≤ (varintBytes (n / 128)).length
      · have := ih _ hlt h2
        have hstep : 128 ^ ((varintBytes (n / 128)).length - 1 + 1) ≤ n := by
          rw [Nat.pow_succ]
          calc 128 ^ ((varintBytes (n / 128)).length - 1) * 128 ≤ (n / 128) * 128 :=
                Nat.mul_le_mul_right _ this
            _ ≤ n := by
                have := Nat.div_mul_le_self n 128
                omega
        have harith : (varintBytes (n / 128)).length + 1 - 1 = (varintBytes (n / 128)).length - 1 + 1 := by
          omega
        rw [harith]
        exact hstep
      · have hne := varintBytes_ne_nil (n / 128)
        have hlen1 : (varintBytes (n / 128)).length = 1 := by
          cases hl : varintBytes (n / 128) with
          | nil => exact absurd hl hne
          | cons b rest =>
            rw [hl] at h2
            simp at h2
            simp [hl, h2]
        rw [hlen1]
        simpa using hn

/-- Minimality: no well-formed varint denoting `n` is shorter than
`varintBytes n`. -/
theorem varintBytes_minimal (n : Nat) (l : List Nat) (hv : validVarint l = true)
    (he : varintValue l = n) : (varintBytes n).length ≤ l.length := by
  have hne : l ≠ [] := by
    intro h
    rw [h] at hv
    simp [validVarint] at hv
  have hlen1 : 1 ≤ l.length := by
    cases l with
    | nil => exact absurd rfl hne
    | cons b rest => simp
  by_cases h2 : 2 ≤ (varintBytes n).length
  · have hlow := varintBytes_lower n h2
    have hup : n < 128 ^ l.length := he ▸ varintValue_lt l
    by_contra hc
    push_neg at hc
    have : 128 ^ l.length ≤ 128 ^ ((varintBytes n).length - 1) :=
      Nat.pow_le_pow_right (by omega) (by omega)
    omega
  · omega

/-- Disjoint bit ranges: oring a value shifted past `a` adds it. -/
theorem lor_shiftLeft_eq_add (a x s : Nat) (h : a < 2 ^ s) :
    a ||| (x <<< s) = a + x * 2 ^ s := by
  rw [Nat.shiftLeft_eq, Nat.lor_comm, Nat.mul_comm x (2 ^ s),
    ← Nat.mul_add_lt_is_or h x]
  omega

/-- `_DecodeVarint`'s loop consumes exactly the groups written by
`_VarintBytes` and reconstructs the value, independently of what follows. -/
theorem decodeVarintLoop_spec :
    ∀ lf n front rest shift result,
      (varintBytes n).length ≤ lf →
      shift + 7 * (varintBytes n).length ≤ 63 →
      result < 2 ^ shift →
      decodeVarintLoop (front ++ (varintBytes n ++ rest)) lf front.length shift result
        = .ok (result + n * 2 ^ shift, front.length + (varintBytes n).length) := by
  intro lf
  induction lf with
  | zero =>
    intro n front rest shift result hlen _ _
    have := varintBytes_ne_nil n
    cases h : varintBytes n with
    | nil => exact absurd h this
    | cons b t => rw [h] at hlen; simp at hlen
  | succ f ih =>
    intro n front rest shift result hlen hshift hres
    have hP : 0 < 2 ^ shift := Nat.pos_pow_of_pos _ (by omega)
    rw [varintBytes_eq] at hlen hshift ⊢
    by_cases hn : n < 128
    · simp only [hn, if_true, List.length_cons, List.length_nil] at hlen hshift ⊢
      have hget : (front ++ ([n] ++ rest))[front.length]? = some n := by
        rw [List.getElem?_append_right (Nat.le_refl _)]
        simp
      obtain ⟨h127, h128, _, _, _⟩ := byte_facts n hn
      simp only [decodeVarintLoop, hget, h127, h128]
      have hval : result ||| (n <<< shift) = result + n * 2 ^ shift :=
        lor_shiftLeft_eq_add result n shift hres
      have hlt : result + n * 2 ^ shift < 2 ^ 64 := by
        have hmul : n * 2 ^ shift ≤ 127 * 2 ^ shift := Nat.mul_le_mul_right _ (by omega)
        have hpow : 2 ^ shift * 128 = 2 ^ (shift + 7) := by rw [Nat.pow_add]
        have hle : 2 ^ (shift + 7) ≤ 2 ^ 64 := Nat.pow_le_pow_right (by omega) (by omega)
        omega
      have hlt' : result + n * 2 ^ shift < 18446744073709551616 := by
        have he : (2 : Nat) ^ 64 = 18446744073709551616 := by norm_num
        omega
      simp [hval, Nat.mod_eq_of_lt hlt']
    · have hne := varintBytes_ne_nil (n / 128)
      have hmod : n % 128 < 128 := Nat.mod_lt _ (by omega)
      have htlen : 1 ≤ (varintBytes (n / 128)).length := by
        cases h : varintBytes (n / 128) with
        | nil => exact absurd h hne
        | cons b t => simp
      simp only [hn, if_false, List.length_cons] at hlen hshift ⊢
      have hget :
          (front ++ (((n % 128 + 128) :: varintBytes (n / 128)) ++ rest))[front.length]?
            = some (n % 128 + 128) := by
        rw [List.getElem?_append_right (Nat.le_refl _)]
        simp
      obtain ⟨_, _, _, h127, h128⟩ := byte_facts (n % 128) hmod
      simp only [decodeVarintLoop, hget, h127, h128]
      have hguard : ¬ (64 ≤ shift + 7) := by omega
      have h128ne : ((128 : Nat) == 0) = false := by decide
      have hval : result ||| ((n % 128) <<< shift) = result + (n % 128) * 2 ^ shift :=
        lor_shiftLeft_eq_add result (n % 128) shift hres
      have hpow : 2 ^ (shift + 7) = 2 ^ shift * 128 := by rw [Nat.pow_add]
      have hres' : result + (n % 128) * 2 ^ shift < 2 ^ (shift + 7) := by
        have hmul : (n % 128) * 2 ^ shift ≤ 127 * 2 ^ shift := Nat.mul_le_mul_right _ (by omega)
        omega
      have harr :
          front ++ (((n % 128 + 128) :: varintBytes (n / 128)) ++ rest)
            = (front ++ [n % 128 + 128]) ++ (varintBytes (n / 128) ++ rest) := by
        simp
      have hfl : front.length + 1 = (front ++ [n % 128 + 128]).length := by
        simp
      rw [h128ne]
      simp only [if_false, hguard, hval]
      rw [harr, hfl,
        ih (n / 128) (front ++ [n % 128 + 128]) rest (shift + 7)
          (result + (n % 128) * 2 ^ shift) (by omega) (by omega) hres']
      have hkey : result + (n % 128) * 2 ^ shift + (n / 128) * 2 ^ (shift + 7)
          = result + n * 2 ^ shift := by
        have hdm : n % 128 + 128 * (n / 128) = n := Nat.mod_add_div n 128
        have : (n % 128) * 2 ^ shift + (n / 128) * 2 ^ (shift + 7)
            = (n % 128 + 128 * (n / 128)) * 2 ^ shift := by
          rw [hpow]
          ring
        rw [hdm] at this
        omega
      rw [hkey]
      simp
      omega

/-- `_DecodeVarint` applied at offset 0 to a varint-prefixed buffer returns
the encoded value and the length of the prefix, for any trailing bytes. -/
theorem decodeVarint_prefix (n : Nat) (rest : List Nat) (h : n < 2 ^ 63) :
    decodeVarint (varintBytes n ++ rest) 0 = .ok (n, (varintBytes n).length) := by
  have h9 : (128 : Nat) ^ 9 = 2 ^ 63 := by norm_num
  have hlen : (varintBytes n).length ≤ 9 :=
    varintBytes_length_le n 9 (by omega) (by omega)
  have := decodeVarintLoop_spec 10 n [] rest 0 0 (by omega) (by omega) (by omega)
  simpa [decodeVarint] using this

/-! ## Codec claims -/

/-- C3: for every registered object type and every values mapping accepted
by its schema, `encode` returns the canonical serialized body prefixed by
the body length as a minimal base-128 varint, least-significant group
first. -/
theorem claim_C3_encode_varint_framing (t : Nat) (m : MessageType) (values : PbValues)
    (obj : PbMsg) (ht : _transcoder t = .ok m) (hv : parseDict m values = .ok obj) :
    encode t values = .ok (varintBytes (serializeMsg obj).length ++ serializeMsg obj)
    ∧ varintValue (varintBytes (serializeMsg obj).length) = (serializeMsg obj).length
    ∧ validVarint (varintBytes (serializeMsg obj).length) = true
    ∧ ∀ l, validVarint l = true → varintValue l = (serializeMsg obj).length →
        (varintBytes (serializeMsg obj).length).length ≤ l.length := by
  refine ⟨?_, varintValue_varintBytes _, validVarint_varintBytes _,
    fun l hv' he => varintBytes_minimal _ l hv' he⟩
  simp [encode, ht, ProtobufTranscoder.encode, hv, except_bind_ok]

/-- Witness for C3 at type 6 with a one-field mapping. -/
theorem claim_C3_encode_varint_framing_witness :
    _transcoder 6 = .ok OneWireTempSensorMsg
    ∧ parseDict OneWireTempSensorMsg [("offset", 5)] = .ok [(2, 5)]
    ∧ encode 6 [("offset", 5)]
        = .ok (varintBytes (serializeMsg [(2, 5)]).length ++ serializeMsg [(2, 5)]) :=
  ⟨rfl, rfl,
    (claim_C3_encode_varint_framing 6 OneWireTempSensorMsg [("offset", 5)] [(2, 5)] rfl rfl).1⟩

/-- C4 (amended): `decode` reads the varint length prefix and ignores any
trailing bytes beyond the declared length, and a malformed varint prefix
raises an error; but when fewer body bytes are present than the prefix
declares, the Python slice truncates silently and the truncated body may
decode successfully — no truncation error is guaranteed. -/
theorem claim_C4_decode_framing_amended :
    (∀ t m values frame junk, _transcoder t = .ok m → encode t values = .ok frame →
        frame.length < 2 ^ 63 →
        decode t (.bytes (frame ++ junk)) = decode t (.bytes frame))
    ∧ (∀ t m, _transcoder t = .ok m →
        decode t (.bytes [128]) = .error (.indexError "index out of range"))
    ∧ decode 6 (.bytes [1]) = .ok [] := by
  refine ⟨?_, ?_, rfl⟩
  · intro t m values frame junk ht henc hlen
    obtain ⟨obj, hobj, hframe⟩ :
        ∃ obj, parseDict m values = .ok obj
          ∧ frame = varintBytes (serializeMsg obj).length ++ serializeMsg obj := by
      cases hd : parseDict m values with
      | error e => simp [encode, ht, hd, ProtobufTranscoder.encode, except_bind_ok] at henc
      | ok obj =>
        refine ⟨obj, rfl, ?_⟩
        simp [encode, ht, hd, ProtobufTranscoder.encode, except_bind_ok] at henc
        exact henc.symm
    subst hframe
    set body := serializeMsg obj with hbody
    have hblen : body.length < 2 ^ 63 := by
      have : body.length ≤ (varintBytes body.length ++ body).length := by simp
      omega
    have hpre := decodeVarint_prefix body.length (body ++ junk) hblen
    have hpre' := decodeVarint_prefix body.length body hblen
    have hassoc : (varintBytes body.length ++ body) ++ junk
        = varintBytes body.length ++ (body ++ junk) := by simp
    have hslice :
        ((varintBytes body.length ++ (body ++ junk)).drop (varintBytes body.length).length).take
          body.length = body := by
      rw [List.drop_left, List.take_left' rfl]
    have hslice' :
        ((varintBytes body.length ++ body).drop (varintBytes body.length).length).take
          body.length = body := by
      rw [List.drop_left, List.take_length]
    simp only [decode, ht, ProtobufTranscoder.decode, toByteBuffer, hassoc, except_bind_ok]
    simp [hpre, hpre', hslice, hslice', except_bind_ok]
  · intro t m ht
    have hv : decodeVarint [128] 0 = .error (.indexError "index out of range") := rfl
    simp [decode, ht, ProtobufTranscoder.decode, toByteBuffer, hv, except_bind_ok,
      except_bind_error]

/-- Witness for the amended C4 at type 6: a concrete frame with junk
appended decodes identically, and a lone continuation byte errors. -/
theorem claim_C4_decode_framing_amended_witness :
    decode 6 (.bytes ([2, 16, 5] ++ [9, 9])) = decode 6 (.bytes [2, 16, 5])
    ∧ decode 6 (.bytes [128]) = .error (.indexError "index out of range") :=
  ⟨claim_C4_decode_framing_amended.1 6 OneWireTempSensorMsg [("offset", 5)] [2, 16, 5] [9, 9]
      rfl rfl (by norm_num),
    claim_C4_decode_framing_amended.2.1 6 OneWireTempSensorMsg rfl⟩

/-- Counterexample to C4 as stated: the buffer `[0x01]` declares one body
byte but contains none, yet `decode` returns the empty mapping instead of
raising a truncation error — Python's slice truncates silently. -/
theorem claim_C4_counterexample :
    decodeVarint [1] 0 = .ok (1, 1)
    ∧ (List.drop 1 [1]).take 1 = ([] : List Nat)
    ∧ decode 6 (.bytes [1]) = .ok [] :=
  ⟨rfl, rfl, rfl⟩

/-- C5: an unregistered object type tag makes both `encode` and `decode`
fail with a lookup error naming the missing codec, for every input. -/
theorem claim_C5_unknown_type (t : Nat) (h10 : t ≠ 10) (h6 : t ≠ 6) :
    (∀ values, encode t values
        = .error (.keyError ("No codec found for object type [" ++ toString t ++ "]")))
    ∧ ∀ e, decode t e
        = .error (.keyError ("No codec found for object type [" ++ toString t ++ "]")) := by
  have f10 : ((t : Nat) == 10) = false := by
    simp [h10]
  have f6 : ((t : Nat) == 6) = false := by
    simp [h6]
  have hl : _transcoder t
      = .error (.keyError ("No codec found for object type [" ++ toString t ++ "]")) := by
    simp [_transcoder, _TYPE_MAPPING, List.lookup, f10, f6]
  exact ⟨fun values => by simp [encode, hl, except_bind_error],
    fun e => by simp [decode, hl, except_bind_error]⟩

/-- Witness for C5 at the unregistered tag 999. -/
theorem claim_C5_unknown_type_witness :
    encode 999 [("offset", 5)]
      = .error (.keyError "No codec found for object type [999]")
    ∧ decode 999 (.bytes [2, 16, 5])
      = .error (.keyError "No codec found for object type [999]") :=
  ⟨(claim_C5_unknown_type 999 (by decide) (by decide)).1 [("offset", 5)],
    (claim_C5_unknown_type 999 (by decide) (by decide)).2 (.bytes [2, 16, 5])⟩

/-- C6: for a registered type, decoding a list of byte-sized integers gives
exactly the result of decoding the corresponding byte buffer. -/
theorem claim_C6_list_bytes_equivalent (t : Nat) (m : MessageType) (l : List Nat)
    (ht : _transcoder t = .ok m) (hl : l.all (fun b => decide (b < 256)) = true) :
    decode t (.list l) = decode t (.bytes l) := by
  simp [decode, ht, ProtobufTranscoder.decode, toByteBuffer, hl, except_bind_ok]

/-- Witness for C6 at type 6 on a concrete frame. -/
theorem claim_C6_list_bytes_equivalent_witness :
    decode 6 (.list [2, 16, 5]) = decode 6 (.bytes [2, 16, 5]) :=
  claim_C6_list_bytes_equivalent 6 OneWireTempSensorMsg [2, 16, 5] rfl (by decide)

/-! ## Command layer lemmas -/

/-- The tail of a greedy-last schema is greedy-last. -/
theorem greedyOnlyLast_tail (f : SchemaField) (fs : List SchemaField)
    (h : greedyOnlyLast (f :: fs) = true) : greedyOnlyLast fs = true := by
  cases fs with
  | nil => rfl
  | cons g gs =>
    simp only [greedyOnlyLast, Bool.and_eq_true] at h
    exact h.2

/-- The variable-length id encoding round-trips through `readIdBytes` for
nonempty paths of seven-bit segments, with any trailing bytes preserved. -/
theorem encodeId_roundtrip : ∀ p rest, p ≠ [] → (∀ b ∈ p, b < 128) →
    readIdBytes (encodeId p ++ rest) = .ok (encodeId p, rest)
    ∧ (encodeId p).map (fun b => b &&& 127) = p := by
  intro p
  induction p with
  | nil => intro rest h _; exact absurd rfl h
  | cons b p' ih =>
    intro rest _ hall
    have hb : b < 128 := hall b (by simp)
    obtain ⟨hb127, hb128, hbor, hbsum127, hbsum128⟩ := byte_facts b hb
    cases p' with
    | nil =>
      constructor
      · simp [encodeId, readIdBytes, hb128]
      · simp [encodeId, hb127]
    | cons c p'' =>
      have hall' : ∀ x ∈ c :: p'', x < 128 := by
        intro x hx
        exact hall x (by simp [hx])
      obtain ⟨hread, hmap⟩ := ih rest (by simp) hall'
      have henc : encodeId (b :: c :: p'') = (b ||| 128) :: encodeId (c :: p'') := rfl
      constructor
      · rw [henc, hbor]
        simp only [List.cons_append, readIdBytes, hbsum128]
        have : ((128 : Nat) == 0) = false := by decide
        rw [this]
        simp only [Bool.false_eq_true, if_false, List.append_eq, hread]
      · rw [henc, hbor]
        simp only [List.map_cons, hbsum127, hmap]

/-- Building a mapping that satisfies a greedy-last schema succeeds, and
parsing the produced bytes returns exactly the mapping with nothing left
over. -/
theorem buildFields_roundtrip : ∀ fields vs, greedyOnlyLast fields = true →
    validFor fields vs = true →
    ∃ bs, buildFields fields vs = .ok bs ∧ parseFields fields bs = .ok (vs, []) := by
  intro fields
  induction fields with
  | nil =>
    intro vs _ hv
    cases vs with
    | nil => exact ⟨[], rfl, rfl⟩
    | cons kv vs' => simp [validFor] at hv
  | cons f fs ih =>
    intro vs hg hv
    cases vs with
    | nil => simp [validFor] at hv
    | cons kv vs' =>
      simp only [validFor, Bool.and_eq_true] at hv
      obtain ⟨hvf, hvs⟩ := hv
      have hg' : greedyOnlyLast fs = true := greedyOnlyLast_tail f fs hg
      obtain ⟨k, v⟩ := kv
      cases f with
      | constOpcode n =>
        simp only [validField, Bool.and_eq_true, beq_iff_eq, decide_eq_true_eq] at hvf
        obtain ⟨⟨hk, hv⟩, _⟩ := hvf
        subst hk
        subst hv
        obtain ⟨bs', hb, hp⟩ := ih vs' hg' hvs
        refine ⟨n :: bs', ?_, ?_⟩
        · simp [buildFields, hb, Except.map]
        · simp [parseFields, hp]
      | objectId nm =>
        cases v with
        | num x => simp [validField] at hvf
        | raw x => simp [validField] at hvf
        | nums p =>
          simp only [validField, Bool.and_eq_true, beq_iff_eq] at hvf
          obtain ⟨⟨hk, hne⟩, hall⟩ := hvf
          subst hk
          have hall128 : ∀ b ∈ p, b < 128 := by
            intro b hbmem
            have := List.all_eq_true.mp hall b hbmem
            simpa using this
          have hpne : p ≠ [] := by
            cases p with
            | nil => simp at hne
            | cons a t => simp
          have hall256 : p.all (fun b => decide (b < 256)) = true := by
            rw [List.all_eq_true]
            intro b hbmem
            have := hall128 b hbmem
            simp
            omega
          obtain ⟨bs', hb, hp⟩ := ih vs' hg' hvs
          obtain ⟨hread, hmap⟩ := encodeId_roundtrip p bs' hpne hall128
          refine ⟨encodeId p ++ bs', ?_, ?_⟩
          · simp [buildFields, hne, hall256, hb, Except.map]
          · simp [parseFields, hread, hp, hmap]
      | uint8 nm =>
        cases v with
        | nums x => simp [validField] at hvf
        | raw x => simp [validField] at hvf
        | num x =>
          simp only [validField, Bool.and_eq_true, beq_iff_eq, decide_eq_true_eq] at hvf
          obtain ⟨hk, hx⟩ := hvf
          subst hk
          obtain ⟨bs', hb, hp⟩ := ih vs' hg' hvs
          refine ⟨x :: bs', ?_, ?_⟩
          · simp [buildFields, hx, hb, Except.map]
          · simp [parseFields, hp]
      | greedyBytes nm =>
        cases v with
        | num x => simp [validField] at hvf
        | nums x => simp [validField] at hvf
        | raw d =>
          simp only [validField, Bool.and_eq_true, beq_iff_eq] at hvf
          obtain ⟨hk, hall⟩ := hvf
          subst hk
          cases fs with
          | cons f' fs' => simp [greedyOnlyLast, isGreedy] at hg
          | nil =>
            have hvs' : vs' = [] := by
              cases vs' with
              | nil => rfl
              | cons a t => simp [validFor] at hvs
            subst hvs'
            refine ⟨d, ?_, ?_⟩
            · simp [buildFields, hall, Except.map]
            · simp [parseFields]

/-! ## Command layer claims -/

/-- C1: encoding the write-value request `object_id=[127,7], type=6,
size=10, data=ten bytes of 0x0F` under opcode 2 yields a frame whose second
and third bytes are `0xFF, 0x07`, and parsing that frame back yields the
original object id and data. -/
theorem claim_C1_write_value_scenario :
    ∃ c bin,
      Command.from_args writeValueCommand writeValueArgs = .ok c
      ∧ c.encoded_request = .ok (some bin)
      ∧ bin[1]? = some 255 ∧ bin[2]? = some 7
      ∧ ∃ parsed, parseSchema writeValueCommand.request bin = .ok parsed
          ∧ parsed.lookup "object_id" = some (.nums [127, 7])
          ∧ parsed.lookup "data" = some (.raw (List.replicate 10 15)) := by
  refine ⟨⟨writeValueCommand, some ([2, 255, 7, 6, 10] ++ List.replicate 10 15),
    some writeValueArgs, none, none⟩, [2, 255, 7, 6, 10] ++ List.replicate 10 15,
    ?_, ?_, ?_, ?_, writeValueReq, ?_, ?_, ?_⟩ <;> rfl

/-- C2: for every command of the table and every mapping satisfying its
request schema, building succeeds and parsing the built bytes returns
exactly the original mapping. -/
theorem claim_C2_build_parse_roundtrip :
    ∀ spec ∈ _COMMANDS, ∀ vs, validFor spec.request vs = true →
      ∃ bs, buildFields spec.request vs = .ok bs
        ∧ parseSchema spec.request bs = .ok vs := by
  intro spec hmem vs hv
  have hall : ∀ s ∈ _COMMANDS, greedyOnlyLast s.request = true := by decide
  obtain ⟨bs, hb, hp⟩ := buildFields_roundtrip spec.request vs (hall spec hmem) hv
  exact ⟨bs, hb, by simp [parseSchema, hp]⟩

/-- Witness for C2 at WRITE_VALUE with the complete request mapping. -/
theorem claim_C2_build_parse_roundtrip_witness :
    ∃ bs, buildFields writeValueCommand.request writeValueReq = .ok bs
      ∧ parseSchema writeValueCommand.request bs = .ok writeValueReq :=
  claim_C2_build_parse_roundtrip writeValueCommand (by decide) writeValueReq (by decide)

/-- C7: `identify` succeeds with a fully populated spec (matching name,
nonzero opcode, nonempty schemas) for every registered name, and fails with
a lookup error for every other name. -/
theorem claim_C7_index_closed :
    (∀ nm ∈ commandNames,
      ∃ s, CommandIndex.identify nm = .ok s ∧ s.name = nm ∧ s.opcode ≠ 0
        ∧ s.request ≠ [] ∧ s.response ≠ [])
    ∧ ∀ nm, nm ∉ commandNames → CommandIndex.identify nm = .error (.keyError nm) := by
  constructor
  · intro nm hmem
    fin_cases hmem <;>
      exact ⟨_, rfl, rfl, by decide, by decide, by decide⟩
  · intro nm hmem
    have hnone : _COMMANDS.find? (fun s => s.name == nm) = none := by
      rw [List.find?_eq_none]
      intro s hs hbeq
      rw [beq_iff_eq] at hbeq
      have hnames : ∀ s ∈ _COMMANDS, s.name ∈ commandNames := by decide
      exact hmem (hbeq ▸ hnames s hs)
    simp [CommandIndex.identify, hnone]

/-- Witness for C7: WRITE_VALUE resolves; UNUSED raises a lookup error. -/
theorem claim_C7_index_closed_witness :
    (∃ s, CommandIndex.identify "WRITE_VALUE" = .ok s ∧ s.name = "WRITE_VALUE"
      ∧ s.opcode ≠ 0 ∧ s.request ≠ [] ∧ s.response ≠ [])
    ∧ CommandIndex.identify "UNUSED" = .error (.keyError "UNUSED") :=
  ⟨claim_C7_index_closed.1 "WRITE_VALUE" (by decide),
    claim_C7_index_closed.2 "UNUSED" (by decide)⟩

/-- C8: a side for which no input was supplied reads back as absent in both
encoded and decoded form, under every construction mode; in particular
supplying only a response leaves both request forms absent. -/
theorem claim_C8_absent_sides :
    (∀ spec fields c, Command.from_args spec fields = .ok c →
        c.encoded_response = .ok none ∧ c.decoded_response = .ok none)
    ∧ (∀ spec resp, (Command.from_decoded spec none resp).encoded_request = .ok none
        ∧ (Command.from_decoded spec none resp).decoded_request = .ok none)
    ∧ (∀ spec req, (Command.from_decoded spec req none).encoded_response = .ok none
        ∧ (Command.from_decoded spec req none).decoded_response = .ok none)
    ∧ (∀ spec resp, (Command.from_encoded spec none resp).encoded_request = .ok none
        ∧ (Command.from_encoded spec none resp).decoded_request = .ok none)
    ∧ (∀ spec req, (Command.from_encoded spec req none).encoded_response = .ok none
        ∧ (Command.from_encoded spec req none).decoded_response = .ok none) := by
  refine ⟨?_, fun spec resp => ⟨rfl, rfl⟩, fun spec req => ⟨rfl, rfl⟩,
    fun spec resp => ⟨rfl, rfl⟩, fun spec req => ⟨rfl, rfl⟩⟩
  intro spec fields c h
  cases hb : buildFields spec.request fields with
  | error e => simp [Command.from_args, hb, Except.map] at h
  | ok enc =>
    simp only [Command.from_args, hb, Except.map, Except.ok.injEq] at h
    subst h
    exact ⟨rfl, rfl⟩

/-- Witness for C8: a response-only command has both request forms absent,
and a concrete `from_args` command has both response forms absent. -/
theorem claim_C8_absent_sides_witness :
    ((Command.from_decoded writeValueCommand none (some writeValueResp)).encoded_request
        = .ok none
      ∧ (Command.from_decoded writeValueCommand none (some writeValueResp)).decoded_request
        = .ok none)
    ∧ ∃ c, Command.from_args writeValueCommand writeValueArgs = .ok c
        ∧ c.encoded_response = .ok none ∧ c.decoded_response = .ok none :=
  ⟨claim_C8_absent_sides.2.1 writeValueCommand (some writeValueResp),
    ⟨writeValueCommand, some ([2, 255, 7, 6, 10] ++ List.replicate 10 15),
      some writeValueArgs, none, none⟩, by rfl,
    claim_C8_absent_sides.1 writeValueCommand writeValueArgs
      ⟨writeValueCommand, some ([2, 255, 7, 6, 10] ++ List.replicate 10 15),
        some writeValueArgs, none, none⟩ (by rfl)⟩

/-- Any hex digit picked from the table (with default) is in the table. -/
theorem hexdigit_mem (i : Nat) : HEXDIGITS.getD i '0' ∈ HEXDIGITS := by
  by_cases h : i < 16
  · interval_cases i <;> decide
  · have hlen : HEXDIGITS.length ≤ i := by
      simp only [HEXDIGITS, List.length_map, List.length_range]
      omega
    rw [List.getD_eq_default _ _ hlen]
    decide

/-- Flattened hex rendering has two characters per byte. -/
theorem hexflat_length (bs : List Nat) :
    ((bs.map byteHex).flatten).length = 2 * bs.length := by
  induction bs with
  | nil => simp
  | cons b t ih =>
    simp only [List.map_cons, List.flatten_cons, List.length_append, ih, byteHex,
      List.length_cons, List.length_nil, List.length_cons]
    omega

/-- C9: the diagnostic hex renderer maps `[0xde, 0xad]` to `"dead"`, maps an
absent value to absent, and for every byte string produces a separator-free
string of lowercase hex digits, two per byte. -/
theorem claim_C9_pretty_raw :
    _pretty_raw (some [222, 173]) = some "dead"
    ∧ _pretty_raw none = none
    ∧ ∀ bs, ∃ s, _pretty_raw (some bs) = some s
        ∧ s.length = 2 * bs.length
        ∧ ∀ ch ∈ s.data, ch ∈ HEXDIGITS := by
  refine ⟨rfl, rfl, ?_⟩
  intro bs
  refine ⟨String.mk ((bs.map byteHex).flatten), rfl, ?_, ?_⟩
  · show ((bs.map byteHex).flatten).length = 2 * bs.length
    exact hexflat_length bs
  · intro ch hch
    have hch' : ch ∈ (bs.map byteHex).flatten := hch
    rw [List.mem_flatten] at hch'
    obtain ⟨l, hl, hchl⟩ := hch'
    rw [List.mem_map] at hl
    obtain ⟨b, _, rfl⟩ := hl
    simp only [byteHex, List.mem_cons, List.not_mem_nil, or_false] at hchl
    rcases hchl with rfl | rfl <;> exact hexdigit_mem _

/-- Witness for C9 on a concrete byte string exercising the general part. -/
theorem claim_C9_pretty_raw_witness :
    ∃ s, _pretty_raw (some [0, 255, 16]) = some s
      ∧ s.length = 2 * ([0, 255, 16] : List Nat).length
      ∧ ∀ ch ∈ s.data, ch ∈ HEXDIGITS :=
  claim_C9_pretty_raw.2.2 [0, 255, 16]

/-! ## Datastore claim -/

/-- C10: `insert_unique` raises a key error when the document lacks the id
key, raises an assertion error when a stored document already carries the
same id value (inserting nothing — an error result carries no new store),
and otherwise appends exactly the given document. -/
theorem claim_C10_insert_unique : ∀ store id_key obj,
    (obj.lookup id_key = none →
      insert_unique store id_key obj = .error (.keyError id_key))
    ∧ (∀ v, obj.lookup id_key = some v →
        store.any (fun d => d.lookup id_key == some v) = true →
        insert_unique store id_key obj = .error (.assertionError v))
    ∧ ∀ v, obj.lookup id_key = some v →
        store.any (fun d => d.lookup id_key == some v) = false →
        insert_unique store id_key obj = .ok (store ++ [obj]) := by
  intro store id_key obj
  refine ⟨fun h => by simp [insert_unique, h],
    fun v hv hdup => by simp [insert_unique, hv, hdup],
    fun v hv hdup => by simp [insert_unique, hv, hdup]⟩

/-- Witness for C10: all three branches at concrete stores. -/
theorem claim_C10_insert_unique_witness :
    insert_unique [] "service_id" [("type", .num 6)] = .error (.keyError "service_id")
    ∧ insert_unique [[("service_id", .str "pancakes")]] "service_id"
        [("service_id", .str "pancakes")] = .error (.assertionError (.str "pancakes"))
    ∧ insert_unique [] "service_id" [("service_id", .str "pancakes")]
        = .ok [[("service_id", .str "pancakes")]] :=
  ⟨(claim_C10_insert_unique [] "service_id" [("type", .num 6)]).1 rfl,
    (claim_C10_insert_unique [[("service_id", .str "pancakes")]] "service_id"
      [("service_id", .str "pancakes")]).2.1 (.str "pancakes") rfl rfl,
    (claim_C10_insert_unique [] "service_id" [("service_id", .str "pancakes")]).2.2
      (.str "pancakes") rfl rfl⟩
